import Mathlib

/-!
# Verification of the curve-sampling pipeline (`src/curve.rs`)

Shallow embedding of the cubic-Bézier curve subsystem: the iterator chain
`CurveIter` → `FlatCurveIter` → `SplineWindows` → `Sampled` →
`Positions` / `Velocities`.

Modelling conventions:
* `na::Vector2<f32>` is modelled as `Fin 2 → ℚ` (exact rationals in place of
  IEEE `f32`; the algebraic structure of the pipeline is what the claims are
  about, and every stage uses only +, *, /).
* Each lazy iterator is embedded as the function from its input stream
  (a `List`) to its output stream, following the `next()` state machine of
  the source; where the per-call state matters (the `Sampled` constructor),
  the state machine itself is also embedded.
-/

/-- A 2-d vector, modelling `na::Vector2<f32>` with exact rationals. -/
abbrev Vec2 : Type := Fin 2 → ℚ

/-- Model of `CurvePoint` (src/curve.rs): in-control offset, anchor, out-control
offset; the controls are relative to the anchor `p`. -/
structure CurvePoint where
  c_in : Vec2
  p : Vec2
  c_out : Vec2
deriving DecidableEq

/-- Model of `Curve` (src/curve.rs): the ordered control points plus the closed flag. -/
structure Curve where
  points : List CurvePoint
  is_closed : Bool
deriving DecidableEq

/-- The loop of `CurveIter::next` (src/curve.rs lines 48-57): while the slice
iterator has elements, yield each one, remembering the first when the curve
is closed; once the slice is exhausted, yield the remembered first point (if
any) exactly once (`self.first.take()`). Arguments are the iterator state:
the remaining slice, the `first` buffer, and `is_closed`. -/
def CurveIter.run : List CurvePoint → Option CurvePoint → Bool → List CurvePoint
  | pp :: rest, first, is_closed =>
      pp :: CurveIter.run rest (if is_closed && first.isNone then some pp else first) is_closed
  | [], first, _ => first.toList

/-- Model of `Curve::iter` (src/curve.rs line 422): a fresh `CurveIter` over the
stored points, with `first = None`. -/
def Curve.iter (c : Curve) : List CurvePoint :=
  CurveIter.run c.points none c.is_closed

/-- Model of `FlatCurveIter::next` (src/curve.rs lines 98-108): for each incoming
point, buffer `[p + c_in, p, p + c_out]` and emit the three buffered vectors
in order before fetching the next point. -/
def FlatCurveIter.run : List CurvePoint → List Vec2
  | [] => []
  | pp :: rest => (pp.p + pp.c_in) :: pp.p :: (pp.p + pp.c_out) :: FlatCurveIter.run rest

/-- A Bézier segment window, the `[na::Vector2<f32>; 4]` item of
`SplineWindows`. -/
abbrev Window : Type := Fin 4 → Vec2

/-- The steady-state loop of `SplineWindows::next` (src/curve.rs lines
151-155): with `prev` the buffered boundary anchor (`buffer[3]` of the
previous round, copied into `buffer[0]`), read three more vectors and emit
the window, then recurse with the new boundary anchor; stop when fewer than
three vectors remain. -/
def SplineWindows.runFrom (prev : Vec2) : List Vec2 → List Window
  | v1 :: v2 :: v3 :: rest => ![prev, v1, v2, v3] :: SplineWindows.runFrom v3 rest
  | _ => []

/-- Model of `SplineWindows::next` (src/curve.rs lines 144-156) as a stream function:
the first call discards one vector (the first point's absolute in-control,
`// skip from c_in to p`), seeds `buffer[3]` with the next vector, and then
runs the steady-state loop. Fewer than two vectors yield no window. -/
def SplineWindows.run : List Vec2 → List Window
  | _ :: seed :: rest => SplineWindows.runFrom seed rest
  | _ => []

/-- Model of `Sampled::next` (src/curve.rs lines 200-214) as a stream function, each
descriptor paired with the control matrix buffered while it is emitted
(`Sampled::mat`, the window's vectors as columns): for the window of index
`i`, emit `R` descriptors `(i, segment * STEP)` for `segment = 0, …, R-1`,
with `STEP = 1 / R`; the window index starts at the given `i` and increments
by one per window. Faithful to the iterator for `R > 0` (with `R = 0` the
iterator never finishes its first window; see `Sampled.next` below for the
per-call state machine). -/
def Sampled.runFrom (R : ℕ) : ℕ → List Window → List ((ℕ × ℚ) × Window)
  | _, [] => []
  | i, w :: rest =>
      ((List.range R).map (fun (segment : ℕ) => ((i, (segment : ℚ) * (1 / (R : ℚ))), w)))
        ++ Sampled.runFrom R (i + 1) rest

/-- The `(segment_index, t)` descriptor stream of `Sampled` (its `Iterator`
item), starting at window index 0. -/
def Sampled.run (R : ℕ) (ws : List Window) : List (ℕ × ℚ) :=
  (Sampled.runFrom R 0 ws).map Prod.fst

/-- The mutable state of `Sampled` (src/curve.rs lines 166-172): the
remaining upstream windows, the buffered matrix (kept as its column
vectors), `spline_index`, `is_initialized`, and `segment`. -/
structure SampledState where
  iter : List Window
  mat : Window
  spline_index : ℕ
  is_initialized : Bool
  segment : ℕ
deriving DecidableEq

/-- Model of `Sampled::new` (src/curve.rs lines 178-186): construction is infallible
for every resolution `R` (including `R = 0`); the state starts with a default
matrix, `spline_index = 0`, `is_initialized = false` and `segment = R`. -/
def Sampled.new (R : ℕ) (ws : List Window) : SampledState :=
  { iter := ws
    mat := fun _ => fun _ => 0
    spline_index := 0
    is_initialized := false
    segment := R }

/-- One call of `Sampled::next` (src/curve.rs lines 200-214): when
`segment = R`, advance `spline_index` (unless this is the first call), reset
`segment`, and buffer the next window (returning `none` when the upstream is
exhausted); then emit `(spline_index, segment * (1/R))` and increment
`segment`. -/
def Sampled.next (R : ℕ) (s : SampledState) : Option ((ℕ × ℚ) × SampledState) :=
  let s1 : SampledState :=
    if s.segment = R then
      { s with
        spline_index := if s.is_initialized then s.spline_index + 1 else s.spline_index
        is_initialized := true
        segment := 0 }
    else s
  if s.segment = R then
    match s1.iter with
    | [] => none
    | w :: rest =>
        some ((s1.spline_index, (s1.segment : ℚ) * (1 / (R : ℚ))),
          { s1 with iter := rest, mat := w, segment := s1.segment + 1 })
  else
    some ((s1.spline_index, (s1.segment : ℚ) * (1 / (R : ℚ))),
      { s1 with segment := s1.segment + 1 })

/-- Matrix `P_COEFS` (src/curve.rs lines 287-292): the cubic-Bézier basis matrix. -/
def P_COEFS : Matrix (Fin 4) (Fin 4) ℚ :=
  !![-1,  3, -3,  1;
      3, -6,  3,  0;
     -3,  3,  0,  0;
      1,  0,  0,  0]

/-- Matrix `V_COEFS` (src/curve.rs lines 337-342): the derivative coefficient
matrix. -/
def V_COEFS : Matrix (Fin 4) (Fin 3) ℚ :=
  !![-3,   6, -3;
      9, -12,  3;
     -9,   6,  0;
      3,   0,  0]

/-- Model of `na::Matrix::from_columns(&vecs)` (src/curve.rs line 209): the 2×4
matrix whose columns are the four window vectors. -/
def matFromColumns (w : Window) : Matrix (Fin 2) (Fin 4) ℚ :=
  Matrix.of fun i j => w j i

/-- The position computed by `Positions::next` (src/curve.rs lines 286-297):
`mat * P_COEFS * T` with `T = [t³, t², t, 1]ᵀ`. -/
def positionEval (w : Window) (t : ℚ) : Vec2 :=
  (matFromColumns w * P_COEFS).mulVec ![t*t*t, t*t, t, 1]

/-- The velocity computed by `Velocities::next` (src/curve.rs lines
336-346): `mat * V_COEFS * T` with `T = [t², t, 1]ᵀ`. -/
def velocityEval (w : Window) (t : ℚ) : Vec2 :=
  (matFromColumns w * V_COEFS).mulVec ![t*t, t, 1]

/-- Model of `Positions::next` (src/curve.rs lines 286-297) over an upstream stream
whose items are paired with the buffered control matrix (the `mat()`
side-channel of `SamplingHelper`): each item is extended with
`mat * P_COEFS * T(t)` where `t` comes from `item_sample`, and the matrix is
re-exposed unchanged. -/
def Positions.run {α : Type} (item_sample : α → ℕ × ℚ) :
    List (α × Window) → List ((α × Vec2) × Window) :=
  List.map fun x => ((x.1, positionEval x.2 (item_sample x.1).2), x.2)

/-- Model of `Velocities::next` (src/curve.rs lines 336-346) over an upstream stream
whose items are paired with the buffered control matrix: each item is
extended with `mat * V_COEFS * T(t)`, and the matrix is re-exposed
unchanged. -/
def Velocities.run {α : Type} (item_sample : α → ℕ × ℚ) :
    List (α × Window) → List ((α × Vec2) × Window) :=
  List.map fun x => ((x.1, velocityEval x.2 (item_sample x.1).2), x.2)

/-- The window built by `SplineWindows` from two consecutive topology points
(`[prev_anchor, prev_out_abs, next_in_abs, next_anchor]`): used to state the
characterisation theorems. -/
def mkWindow (pp qq : CurvePoint) : Window :=
  ![pp.p, pp.p + pp.c_out, qq.p + qq.c_in, qq.p]

/-! ## Characterisation lemmas for the topology iterator -/

/-- Once `first` is buffered on a closed traversal, the run yields the rest
of the slice and then the buffered point. -/
lemma CurveIter.run_some (l : List CurvePoint) (f : CurvePoint) :
    CurveIter.run l (some f) true = l ++ [f] := by
  induction l with
  | nil => rfl
  | cons pp rest ih => simp [CurveIter.run, ih]

/-- An open traversal never buffers a first point: it yields the slice then
whatever was already buffered. -/
lemma CurveIter.run_open (l : List CurvePoint) (f : Option CurvePoint) :
    CurveIter.run l f false = l ++ f.toList := by
  induction l generalizing f with
  | nil => simp [CurveIter.run]
  | cons pp rest ih => simp [CurveIter.run, ih]

/-- Closed form of `Curve::iter`: the stored points, followed by the first
point again when the curve is closed and non-empty. -/
lemma Curve.iter_eq (c : Curve) :
    c.iter = if c.is_closed then
        (match c.points with
          | [] => []
          | p0 :: _ => c.points ++ [p0])
      else c.points := by
  unfold Curve.iter
  cases hc : c.is_closed with
  | false => simp [CurveIter.run_open]
  | true =>
      cases hp : c.points with
      | nil => rfl
      | cons p0 rest => simp [CurveIter.run, CurveIter.run_some]

/-! ## Characterisation of the windowing stage -/

/-- Steady state of the windowing loop over a flattened stream: starting
from the boundary anchor of `pp` with `pp`'s out-control pending, the
windows are exactly the `mkWindow` of consecutive points. -/
lemma SplineWindows.runFrom_flat (pp : CurvePoint) (rest : List CurvePoint) :
    SplineWindows.runFrom pp.p ((pp.p + pp.c_out) :: FlatCurveIter.run rest)
      = List.zipWith mkWindow (pp :: rest) rest := by
  induction rest generalizing pp with
  | nil => rfl
  | cons qq rest ih =>
      simp only [FlatCurveIter.run, SplineWindows.runFrom, List.zipWith, ih qq]
      rfl

/-- The windowing stage over the flattened stream of a point list yields the
`mkWindow` of each consecutive pair. -/
lemma SplineWindows.run_flat (pts : List CurvePoint) :
    SplineWindows.run (FlatCurveIter.run pts)
      = List.zipWith mkWindow pts pts.tail := by
  cases pts with
  | nil => rfl
  | cons pp rest =>
      simp only [FlatCurveIter.run, SplineWindows.run, List.tail_cons]
      exact SplineWindows.runFrom_flat pp rest

/-! ## Flattening-stage index lemmas -/

lemma FlatCurveIter.run_length (pts : List CurvePoint) :
    (FlatCurveIter.run pts).length = 3 * pts.length := by
  induction pts with
  | nil => rfl
  | cons pp rest ih => simp [FlatCurveIter.run, ih]; ring

lemma FlatCurveIter.run_getElem (pts : List CurvePoint) (k : ℕ) (pp : CurvePoint)
    (h : pts[k]? = some pp) :
    (FlatCurveIter.run pts)[3*k]? = some (pp.p + pp.c_in) ∧
    (FlatCurveIter.run pts)[3*k+1]? = some pp.p ∧
    (FlatCurveIter.run pts)[3*k+2]? = some (pp.p + pp.c_out) := by
  induction pts generalizing k with
  | nil => simp at h
  | cons qq rest ih =>
      cases k with
      | zero =>
          simp only [List.getElem?_cons_zero, Option.some.injEq] at h
          subst h
          simp [FlatCurveIter.run]
      | succ k =>
          simp only [List.getElem?_cons_succ] at h
          refine ⟨?_, ?_, ?_⟩
          · rw [show 3*(k+1) = 3*k+1+1+1 from by ring]
            simp only [FlatCurveIter.run, List.getElem?_cons_succ]
            exact (ih k h).1
          · rw [show 3*(k+1)+1 = (3*k+1)+1+1+1 from by ring]
            simp only [FlatCurveIter.run, List.getElem?_cons_succ]
            exact (ih k h).2.1
          · rw [show 3*(k+1)+2 = (3*k+2)+1+1+1 from by ring]
            simp only [FlatCurveIter.run, List.getElem?_cons_succ]
            exact (ih k h).2.2

/-! ## Example points (mirroring the repository's own unit tests) -/

def examplePoint1 : CurvePoint := ⟨![0, 1], ![2, 3], ![4, 5]⟩
def examplePoint2 : CurvePoint := ⟨![6, 7], ![8, 9], ![10, 11]⟩
def examplePoint3 : CurvePoint := ⟨![12, 13], ![14, 15], ![16, 17]⟩

/-! ## Claim theorems -/

/-- C3: for a curve with `n` stored points, `Curve::iter` yields exactly the
stored points in order when open; the stored points followed by one repeat
of the first point (`n+1` elements, last equal to first) when closed and
non-empty; and nothing when closed and empty. -/
theorem C3_curve_iter (c : Curve) :
    (c.is_closed = false → c.iter = c.points) ∧
    (∀ p0 rest, c.is_closed = true → c.points = p0 :: rest →
      c.iter = c.points ++ [p0] ∧
      c.iter.length = c.points.length + 1 ∧
      c.iter.getLast? = some p0 ∧
      c.iter.head? = some p0) ∧
    (c.is_closed = true → c.points = [] → c.iter = []) := by
  refine ⟨?_, ?_, ?_⟩
  · intro h
    rw [Curve.iter_eq, h]
    simp
  · intro p0 rest hcl hpts
    rw [Curve.iter_eq, hcl, if_pos rfl, hpts]
    refine ⟨rfl, by simp, ?_, rfl⟩
    show ((p0 :: rest) ++ [p0]).getLast? = some p0
    rw [List.getLast?_concat]
  · intro hcl hpts
    rw [Curve.iter_eq, hcl, hpts]
    simp

/-- Witness for C3 at a concrete closed two-point curve. -/
theorem C3_curve_iter_witness :
    (Curve.mk [examplePoint1, examplePoint2] true).iter
      = [examplePoint1, examplePoint2] ++ [examplePoint1] :=
  ((C3_curve_iter ⟨[examplePoint1, examplePoint2], true⟩).2.1
    examplePoint1 [examplePoint2] rfl rfl).1

/-- C4: the flattening stage emits, for each topology point `{c_in, p,
c_out}` in order, exactly the three vectors `(p + c_in, p, p + c_out)` in
that order, and the flattened stream has length 3 × topology length. -/
theorem C4_flatten (c : Curve) :
    (FlatCurveIter.run c.iter).length = 3 * c.iter.length ∧
    ∀ k pp, c.iter[k]? = some pp →
      (FlatCurveIter.run c.iter)[3*k]? = some (pp.p + pp.c_in) ∧
      (FlatCurveIter.run c.iter)[3*k+1]? = some pp.p ∧
      (FlatCurveIter.run c.iter)[3*k+2]? = some (pp.p + pp.c_out) :=
  ⟨FlatCurveIter.run_length c.iter,
   fun k pp h => FlatCurveIter.run_getElem c.iter k pp h⟩

/-- Witness for C4 at a concrete open two-point curve, index 1. -/
theorem C4_flatten_witness :
    (FlatCurveIter.run (Curve.mk [examplePoint1, examplePoint2] false).iter).length
        = 3 * (Curve.mk [examplePoint1, examplePoint2] false).iter.length ∧
    (FlatCurveIter.run (Curve.mk [examplePoint1, examplePoint2] false).iter)[3*1]?
        = some (examplePoint2.p + examplePoint2.c_in) := by
  refine ⟨(C4_flatten _).1, ?_⟩
  exact ((C4_flatten ⟨[examplePoint1, examplePoint2], false⟩).2 1 examplePoint2 (by decide)).1

lemma List.tail_getElem_opt {α : Type} (l : List α) (k : ℕ) :
    l.tail[k]? = l[k+1]? := by
  cases l <;> simp

/-- C2: for a curve with topology length `L`, the windowing stage yields
`L − 1` windows when `L ≥ 2` (open `n`-point curve: `n − 1`; closed
`n`-point curve: `n`), the `k`-th window is
`[a_k, a_k + c_out_k, a_{k+1} + c_in_{k+1}, a_{k+1}]` for consecutive
topology points `k`, `k+1`; the first flattened element is discarded (the
windows are unchanged under replacing it by any vector); and fewer than 2
topology points yield zero windows. -/
theorem C2_windowing (c : Curve) :
    (2 ≤ c.iter.length →
      (SplineWindows.run (FlatCurveIter.run c.iter)).length = c.iter.length - 1) ∧
    (∀ k pp qq, c.iter[k]? = some pp → c.iter[k+1]? = some qq →
      (SplineWindows.run (FlatCurveIter.run c.iter))[k]? = some (mkWindow pp qq)) ∧
    (∀ v : Vec2,
      SplineWindows.run (v :: (FlatCurveIter.run c.iter).tail)
        = SplineWindows.run (FlatCurveIter.run c.iter)) ∧
    (c.iter.length < 2 → SplineWindows.run (FlatCurveIter.run c.iter) = []) := by
  have hzip := SplineWindows.run_flat c.iter
  have hlen : (SplineWindows.run (FlatCurveIter.run c.iter)).length = c.iter.length - 1 := by
    rw [hzip, List.length_zipWith, List.length_tail]
    omega
  refine ⟨fun _ => hlen, ?_, ?_, ?_⟩
  · intro k pp qq hpp hqq
    rw [hzip, List.getElem?_zipWith_eq_some]
    exact ⟨pp, qq, hpp, by rw [List.tail_getElem_opt]; exact hqq, rfl⟩
  · intro v
    cases hpts : c.iter with
    | nil => rfl
    | cons pp rest =>
        cases rest with
        | nil => rfl
        | cons qq rest => rfl
  · intro hL
    have : (SplineWindows.run (FlatCurveIter.run c.iter)).length = 0 := by omega
    exact List.length_eq_zero.mp this

/-- Witness for C2 at the repository's three-point open test curve. -/
theorem C2_windowing_witness :
    (SplineWindows.run (FlatCurveIter.run
        (Curve.mk [examplePoint1, examplePoint2, examplePoint3] false).iter)).length
      = (Curve.mk [examplePoint1, examplePoint2, examplePoint3] false).iter.length - 1 ∧
    (SplineWindows.run (FlatCurveIter.run
        (Curve.mk [examplePoint1, examplePoint2, examplePoint3] false).iter))[1]?
      = some (mkWindow examplePoint2 examplePoint3) :=
  ⟨(C2_windowing ⟨[examplePoint1, examplePoint2, examplePoint3], false⟩).1 (by decide),
   (C2_windowing ⟨[examplePoint1, examplePoint2, examplePoint3], false⟩).2.1 1
     examplePoint2 examplePoint3 (by decide) (by decide)⟩

/-! ## Sampling-stage index lemmas -/

lemma Sampled.runFrom_length (R i : ℕ) (ws : List Window) :
    (Sampled.runFrom R i ws).length = ws.length * R := by
  induction ws generalizing i with
  | nil => simp [Sampled.runFrom]
  | cons w rest ih =>
      simp [Sampled.runFrom, ih]
      ring

lemma Sampled.runFrom_getElem (R : ℕ) (hR : 0 < R) (ws : List Window) :
    ∀ i j, j < ws.length * R →
      ((Sampled.runFrom R i ws).map Prod.fst)[j]?
        = some (i + j / R, ((j % R : ℕ) : ℚ) * (1 / (R : ℚ))) := by
  induction ws with
  | nil => intro i j h; simp at h
  | cons w rest ih =>
      intro i j h
      rw [Sampled.runFrom, List.map_append, List.map_map]
      by_cases hj : j < R
      · rw [List.getElem?_append_left (by simpa using hj), List.getElem?_map,
          List.getElem?_range hj]
        simp [Nat.div_eq_of_lt hj, Nat.mod_eq_of_lt hj]
      · have hR' : R ≤ j := Nat.le_of_not_lt hj
        have hlen : ((List.range R).map
            (Prod.fst ∘ fun (segment : ℕ) =>
              ((i, (segment : ℚ) * (1 / (R : ℚ))), w))).length = R := by
          simp
        rw [List.getElem?_append_right (by simpa using hR'), hlen]
        have hbound : j - R < rest.length * R := by
          rw [List.length_cons, Nat.succ_mul] at h
          omega
        rw [ih (i + 1) (j - R) hbound]
        have hdiv : j / R = (j - R) / R + 1 := Nat.div_eq_sub_div hR hR'
        have hmod : j % R = (j - R) % R := Nat.mod_eq_sub_mod hR'
        rw [hdiv, hmod]
        have he : i + 1 + (j - R) / R = i + ((j - R) / R + 1) := by omega
        rw [he]

/-- C1: for `W` windows and resolution `R > 0`, the sampling stage yields
exactly `W × R` descriptors, and the `j`-th (0-based) descriptor equals
`(j / R, (j % R) / R)` — hence `t` ranges over `0/R, …, (R-1)/R` within each
window and the segment index is non-decreasing, starts at 0, increments by
exactly 1 every `R` samples and covers `0..W`. -/
theorem C1_sampling (R : ℕ) (hR : 0 < R) (ws : List Window) :
    (Sampled.run R ws).length = ws.length * R ∧
    ∀ j, j < ws.length * R →
      (Sampled.run R ws)[j]? = some (j / R, ((j % R : ℕ) : ℚ) / (R : ℚ)) := by
  constructor
  · rw [Sampled.run, List.length_map, Sampled.runFrom_length]
  · intro j hj
    rw [Sampled.run, Sampled.runFrom_getElem R hR ws 0 j hj]
    rw [Nat.zero_add, one_div, ← div_eq_mul_inv]

/-- Witness for C1 at resolution 2 over the two windows of the repository's
three-point open test curve. -/
theorem C1_sampling_witness :
    (Sampled.run 2 [mkWindow examplePoint1 examplePoint2,
        mkWindow examplePoint2 examplePoint3]).length = 2 * 2 ∧
    (Sampled.run 2 [mkWindow examplePoint1 examplePoint2,
        mkWindow examplePoint2 examplePoint3])[3]? = some (1, (1 : ℚ) / 2) := by
  have h := C1_sampling 2 (by decide)
    [mkWindow examplePoint1 examplePoint2, mkWindow examplePoint2 examplePoint3]
  refine ⟨by simpa using h.1, ?_⟩
  have h3 := h.2 3 (by decide)
  norm_num at h3
  simpa using h3

/-! ## Evaluation-stage component lemmas -/

/-- Components of `mat * P_COEFS * [t³,t²,t,1]ᵀ`: the Bernstein weights of
the four window columns. -/
lemma positionEval_apply (w : Window) (t : ℚ) (i : Fin 2) :
    positionEval w t i
      = w 0 i * (-(t^3) + 3*t^2 - 3*t + 1) + w 1 i * (3*t^3 - 6*t^2 + 3*t)
        + w 2 i * (-3*t^3 + 3*t^2) + w 3 i * t^3 := by
  simp [positionEval, matFromColumns, P_COEFS, Matrix.mulVec, Matrix.mul_apply,
    Matrix.dotProduct, Fin.sum_univ_four, Matrix.vecHead, Matrix.vecTail,
    Function.comp]
  ring

/-- Components of `mat * V_COEFS * [t²,t,1]ᵀ`. -/
lemma velocityEval_apply (w : Window) (t : ℚ) (i : Fin 2) :
    velocityEval w t i
      = w 0 i * (-3*t^2 + 6*t - 3) + w 1 i * (9*t^2 - 12*t + 3)
        + w 2 i * (-9*t^2 + 6*t) + w 3 i * (3*t^2) := by
  simp [velocityEval, matFromColumns, V_COEFS, Matrix.mulVec, Matrix.mul_apply,
    Matrix.dotProduct, Fin.sum_univ_three, Fin.sum_univ_four, Matrix.vecHead,
    Matrix.vecTail, Function.comp]
  ring

/-- C5: the position formula evaluated on any window yields exactly `p0` at
`t = 0` and exactly `p3` at the (theoretical, never-sampled) `t = 1`; and
any two consecutive windows produced by the windowing stage share their
boundary anchor (window `k`'s `p3` is window `k+1`'s `p0`), so the position
at `t = 0` of segment `k+1` equals the position at `t = 1` of segment `k`. -/
theorem C5_junction_continuity :
    (∀ w : Window, positionEval w 0 = w 0 ∧ positionEval w 1 = w 3) ∧
    (∀ (c : Curve) (k : ℕ) (w w' : Window),
      (SplineWindows.run (FlatCurveIter.run c.iter))[k]? = some w →
      (SplineWindows.run (FlatCurveIter.run c.iter))[k+1]? = some w' →
      w' 0 = w 3 ∧ positionEval w' 0 = positionEval w 1) := by
  have hends : ∀ w : Window, positionEval w 0 = w 0 ∧ positionEval w 1 = w 3 := by
    intro w
    constructor
    · funext i
      rw [positionEval_apply]
      norm_num
    · funext i
      rw [positionEval_apply]
      norm_num
  refine ⟨hends, ?_⟩
  intro c k w w' hw hw'
  rw [SplineWindows.run_flat, List.getElem?_zipWith_eq_some] at hw hw'
  obtain ⟨pp, qq, hpp, hqq, hmk⟩ := hw
  obtain ⟨pp', qq', hpp', hqq', hmk'⟩ := hw'
  rw [List.tail_getElem_opt] at hqq hqq'
  rw [hpp'] at hqq
  have hq : pp' = qq := Option.some.inj hqq
  have hshare : w' 0 = w 3 := by
    rw [← hmk, ← hmk', mkWindow, mkWindow]
    show pp'.p = qq.p
    rw [hq]
  refine ⟨hshare, ?_⟩
  rw [(hends w').1, (hends w).2, hshare]

/-- Witness for C5 on the repository's three-point open test curve,
windows 0 and 1. -/
theorem C5_junction_continuity_witness :
    positionEval (mkWindow examplePoint1 examplePoint2) 0
        = (mkWindow examplePoint1 examplePoint2) 0 ∧
    (mkWindow examplePoint2 examplePoint3) 0 = (mkWindow examplePoint1 examplePoint2) 3 ∧
    positionEval (mkWindow examplePoint2 examplePoint3) 0
      = positionEval (mkWindow examplePoint1 examplePoint2) 1 := by
  refine ⟨(C5_junction_continuity.1 (mkWindow examplePoint1 examplePoint2)).1, ?_, ?_⟩
  · exact (C5_junction_continuity.2 ⟨[examplePoint1, examplePoint2, examplePoint3], false⟩
      0 (mkWindow examplePoint1 examplePoint2) (mkWindow examplePoint2 examplePoint3)
      rfl rfl).1
  · exact (C5_junction_continuity.2 ⟨[examplePoint1, examplePoint2, examplePoint3], false⟩
      0 (mkWindow examplePoint1 examplePoint2) (mkWindow examplePoint2 examplePoint3)
      rfl rfl).2

/-- Derivative of a cubic polynomial function over ℚ. -/
lemma cubic_hasDerivAt (a b c d t : ℚ) :
    HasDerivAt (fun s : ℚ => a*s^3 + b*s^2 + c*s + d) (3*a*t^2 + 2*b*t + c) t := by
  have h := ((((hasDerivAt_pow 3 t).const_mul a).add
      ((hasDerivAt_pow 2 t).const_mul b)).add
      ((hasDerivAt_id t).const_mul c)).add_const d
  convert h using 1
  push_cast
  ring

/-- C6: for every 2×4 control matrix and every `t`, the velocity
`mat * V_COEFS * [t²,t,1]ᵀ` emitted by the velocity stage is the exact
derivative in `t` of the position polynomial `mat * P_COEFS * [t³,t²,t,1]ᵀ`
of the position stage (componentwise, over the exact rationals); and the
stage does not unit-normalize: a window with all four control points
coincident yields the zero velocity vector, emitted as-is. -/
theorem C6_velocity_is_derivative :
    (∀ (w : Window) (t : ℚ) (i : Fin 2),
      HasDerivAt (fun s => positionEval w s i) (velocityEval w t i) t) ∧
    (∀ (v : Vec2) (t : ℚ), velocityEval ![v, v, v, v] t = fun _ => 0) := by
  constructor
  · intro w t i
    have hfun : (fun s => positionEval w s i)
        = fun s : ℚ => (-(w 0 i) + 3*(w 1 i) - 3*(w 2 i) + w 3 i)*s^3
            + (3*(w 0 i) - 6*(w 1 i) + 3*(w 2 i))*s^2
            + (-3*(w 0 i) + 3*(w 1 i))*s + w 0 i := by
      funext s
      rw [positionEval_apply]
      ring
    have hval : velocityEval w t i
        = 3*(-(w 0 i) + 3*(w 1 i) - 3*(w 2 i) + w 3 i)*t^2
            + 2*(3*(w 0 i) - 6*(w 1 i) + 3*(w 2 i))*t
            + (-3*(w 0 i) + 3*(w 1 i)) := by
      rw [velocityEval_apply]
      ring
    rw [hfun, hval]
    exact cubic_hasDerivAt _ _ _ _ t
  · intro v t
    funext i
    show velocityEval ![v, v, v, v] t i = 0
    have hw : ∀ j : Fin 4, (![v, v, v, v] : Window) j = v := by
      intro j
      fin_cases j <;>
        simp [Matrix.cons_val_two, Matrix.cons_val_three, Matrix.vecHead, Matrix.vecTail]
    rw [velocityEval_apply, hw 0, hw 1, hw 2, hw 3]
    ring

/-- C7 counterexample: the claim asserts that on the degenerate window
`[p0, p0, p3, p3]` the position at `t` is the affine interpolation
`p0 + t*(p3 - p0)`; at `p0 = (0,0)`, `p3 = (1,0)`, `t = 1/4` the position
stage yields `(5/32, 0)`, not `(1/4, 0)`. -/
theorem C7_linear_counterexample :
    positionEval ![![0,0], ![0,0], ![1,0], ![1,0]] (1/4)
      ≠ (![0,0] : Vec2) + (1/4 : ℚ) • ((![1,0] : Vec2) - ![0,0]) := by
  intro h
  have h0 := congrFun h 0
  rw [positionEval_apply] at h0
  norm_num [Matrix.cons_val_zero, Matrix.cons_val_one, Matrix.head_cons,
    Matrix.cons_val_two, Matrix.cons_val_three, Matrix.vecHead, Matrix.vecTail,
    Pi.add_apply, Pi.smul_apply, Pi.sub_apply, smul_eq_mul] at h0

/-- C7 amended: a segment whose bounding anchors have zero control offsets
has window `[p0, p0, p3, p3]`, and on such a window the position stage
yields a point on the straight chord between the anchors — but with the
cubic easing `3t² − 2t³`, not the affine parameter `t`:
`position(t) = p0 + (3t² − 2t³)·(p3 − p0)`. -/
theorem C7_degenerate_segment (p0 p3 : Vec2) (t : ℚ) :
    mkWindow ⟨0, p0, 0⟩ ⟨0, p3, 0⟩ = ![p0, p0, p3, p3] ∧
    positionEval ![p0, p0, p3, p3] t = p0 + (3*t^2 - 2*t^3) • (p3 - p0) := by
  constructor
  · funext j
    fin_cases j <;>
      simp [mkWindow, Matrix.cons_val_two, Matrix.cons_val_three,
        Matrix.vecHead, Matrix.vecTail]
  · funext i
    rw [positionEval_apply]
    simp only [Matrix.cons_val_zero, Matrix.cons_val_one, Matrix.head_cons,
      Matrix.cons_val_two, Matrix.cons_val_three, Matrix.vecHead, Matrix.vecTail,
      Function.comp, Fin.succ_zero_eq_one, Fin.succ_one_eq_two,
      Pi.add_apply, Pi.smul_apply, Pi.sub_apply, smul_eq_mul]
    ring

/-- C8: chaining the position and velocity wrappers in either order over the
sampling stage produces, sample for sample, the same `(segment_index, t)`
descriptor re-exposed untouched, the same position vector and the same
velocity vector; and each wrapper re-exposes the descriptor and the
per-window control matrix of the stage it wraps unchanged. -/
theorem C8_composability (R : ℕ) (ws : List Window) :
    ((Velocities.run (fun a => a.1) (Positions.run id (Sampled.runFrom R 0 ws))).map
        (fun x => (x.1.1.1, x.1.1.2, x.1.2, x.2))
      = (Positions.run (fun a => a.1) (Velocities.run id (Sampled.runFrom R 0 ws))).map
        (fun x => (x.1.1.1, x.1.2, x.1.1.2, x.2))) ∧
    ((Positions.run id (Sampled.runFrom R 0 ws)).map (fun x => (x.1.1, x.2))
      = Sampled.runFrom R 0 ws) ∧
    ((Velocities.run id (Sampled.runFrom R 0 ws)).map (fun x => (x.1.1, x.2))
      = Sampled.runFrom R 0 ws) := by
  have hid : ∀ (f : ((ℕ × ℚ) × Window) → Vec2),
      ((fun (x : ((ℕ × ℚ) × Vec2) × Window) => (x.1.1, x.2)) ∘
        fun (x : (ℕ × ℚ) × Window) => ((x.1, f x), x.2)) = id := fun _ => rfl
  refine ⟨?_, ?_, ?_⟩
  · simp [Positions.run, Velocities.run, List.map_map, Function.comp]
  · rw [Positions.run, List.map_map, hid, List.map_id]
  · rw [Velocities.run, List.map_map, hid, List.map_id]

/-- C9 counterexample: `Sampled::new` with resolution 0 is not rejected —
construction succeeds and the very first `next()` call on a non-empty
window stream emits a sample.  (In the source the emitted `t` is the `f32`
junk value `0 * (1.0/0.0)`; in this exact-rational model it is `0`.  The
counterexample only uses that a sampler exists and yields output, i.e.
that nothing was rejected at construction time.) -/
theorem C9_zero_resolution_counterexample :
    Sampled.next 0 (Sampled.new 0 [mkWindow examplePoint1 examplePoint2])
      = some ((0, 0),
        { iter := []
          mat := mkWindow examplePoint1 examplePoint2
          spline_index := 0
          is_initialized := true
          segment := 1 }) := by
  simp [Sampled.next, Sampled.new]

/-- C9 amended: the sampling stage never rejects a resolution at
construction time: `Sampled::new` is an infallible (total) constructor for
every `R`, including `R = 0` (negative resolutions are unrepresentable only
because the resolution type `u16` is unsigned); the constructed sampler
proceeds to per-sample behaviour — its first `next()` yields `none` exactly
when the upstream window stream is empty, and on a non-empty stream it
emits the descriptor `(0, 0)`, for every `R`. -/
theorem C9_construction_total (R : ℕ) (ws : List Window) :
    (Sampled.next R (Sampled.new R ws) = none ↔ ws = []) ∧
    (∀ w rest, ws = w :: rest →
      (Sampled.next R (Sampled.new R ws)).map (fun x => x.1) = some (0, 0)) := by
  constructor
  · cases ws <;> simp [Sampled.next, Sampled.new]
  · intro w rest hws
    subst hws
    simp [Sampled.next, Sampled.new]

/-- Witness for C9's amended statement at `R = 0` and a singleton stream. -/
theorem C9_construction_total_witness :
    (Sampled.next 0 (Sampled.new 0 ([] : List Window)) = none) ∧
    ((Sampled.next 0 (Sampled.new 0 [mkWindow examplePoint1 examplePoint2])).map
      (fun x => x.1) = some (0, 0)) :=
  ⟨(C9_construction_total 0 []).1.mpr rfl,
   (C9_construction_total 0 [mkWindow examplePoint1 examplePoint2]).2
     (mkWindow examplePoint1 examplePoint2) [] rfl⟩

/-- C10: a closed curve with exactly one point `{c_in, p, c_out}` produces
exactly one window `[p, p + c_out, p + c_in, p]` (a self-loop segment), and
sampling it at resolution `R > 0` yields exactly `R` descriptors, all with
segment index 0. -/
theorem C10_single_point_closed (pt : CurvePoint) (R : ℕ) (_hR : 0 < R) :
    SplineWindows.run (FlatCurveIter.run (Curve.mk [pt] true).iter)
      = [![pt.p, pt.p + pt.c_out, pt.p + pt.c_in, pt.p]] ∧
    (Sampled.run R (SplineWindows.run (FlatCurveIter.run (Curve.mk [pt] true).iter))).length
      = R ∧
    ∀ d ∈ Sampled.run R (SplineWindows.run (FlatCurveIter.run (Curve.mk [pt] true).iter)),
      d.1 = 0 := by
  have hw : SplineWindows.run (FlatCurveIter.run (Curve.mk [pt] true).iter)
      = [![pt.p, pt.p + pt.c_out, pt.p + pt.c_in, pt.p]] := rfl
  refine ⟨hw, ?_, ?_⟩
  · rw [hw, Sampled.run, List.length_map, Sampled.runFrom_length]
    simp
  · intro d hd
    rw [hw] at hd
    simp only [Sampled.run, Sampled.runFrom, List.append_nil, List.map_map,
      List.mem_map, List.mem_range] at hd
    obtain ⟨segment, _, hseg⟩ := hd
    rw [← hseg]
    rfl

/-- Witness for C10 at a concrete point and resolution 3. -/
theorem C10_single_point_closed_witness :
    SplineWindows.run (FlatCurveIter.run (Curve.mk [examplePoint1] true).iter)
      = [![examplePoint1.p, examplePoint1.p + examplePoint1.c_out,
           examplePoint1.p + examplePoint1.c_in, examplePoint1.p]] ∧
    (Sampled.run 3 (SplineWindows.run
        (FlatCurveIter.run (Curve.mk [examplePoint1] true).iter))).length = 3 :=
  ⟨(C10_single_point_closed examplePoint1 3 (by decide)).1,
   (C10_single_point_closed examplePoint1 3 (by decide)).2.1⟩
